import Mathlib

/-!
Shallow embedding of the two scripts of this repository:

* `Langflow/embedder.py` — `create_embeddings`: a backfill job that adds a
  vector column to a table and fills it, batch by batch, with embeddings
  obtained from an external provider.
* `Langflow/embedder_test.py` — `semantic_search`: a query tool that embeds a
  search phrase and ranks rows of the table by vector distance.

External collaborators (the PostgreSQL catalog and data, the OpenAI client,
failure of individual calls) are modelled by explicit oracles passed as
arguments: `Catalog` for the schema-existence checks, a `Provider` function
for the embedding API (returning `Except` to model raised exceptions), an
`updateFails` oracle for failures of individual UPDATE statements, and a
`connectErr` oracle for connection failure.  Embedding vectors are lists of
rationals.  Every observable action of a run (catalog checks, provider calls,
ALTER TABLE, UPDATEs, commits, cursor operations, printed lines) is recorded
in an event trace so that ordering and absence of actions can be stated.
-/

namespace Embedder

/-- An embedding vector as stored in a pgvector column. -/
abbrev Vec := List ℚ

/-- The embedding provider: one input text, one vector, or a raised error
(`client.embeddings.create(input=[text], model="text-embedding-3-small")`). -/
abbrev Provider := String → Except String Vec

/-- One row of the target table as seen by the scripts: the primary-key value,
the source text column (nullable) and the embedding column (nullable). -/
structure Row where
  pk : Nat
  text : Option String
  embedding : Option Vec
  deriving DecidableEq, Repr

/-- Schema facts the backfill preflight queries from the catalog
(`information_schema`): table existence, source-column existence, and the
discovered primary-key column names (`fetchall` of the key-usage query). -/
structure Catalog where
  tableExists : Bool
  columnExists : Bool
  pkColumns : List String
  deriving DecidableEq, Repr

/-- Observable actions of a backfill run, in program order. -/
inductive Event where
  | checkTable (ok : Bool)
  | checkColumn (ok : Bool)
  | checkPk (ok : Bool)
  | alterTable (dim : Nat)
  | declareCursor
  | fetch (n : Nat)
  | providerCall (input : String)
  | update (pk : Nat)
  | commit
  | closeCursor
  | print (msg : String)
  deriving DecidableEq, Repr

/-- Python exceptions relevant to the outer `try` of `create_embeddings`:
`psycopg2.Error` or any other `Exception`. -/
inductive PyExn where
  | dbError (msg : String)
  | otherError (msg : String)
  deriving DecidableEq, Repr

/-- The diagnostic printed by the two `except` clauses of
`create_embeddings`. -/
def catchDiag : PyExn → String
  | PyExn.dbError m => "Database error: " ++ m
  | PyExn.otherError m => "Unexpected error: " ++ m

/-- Diagnostic for a missing table (`print(f"Table {table_name} does not exist.")`). -/
def tableMsg (tn : String) : String :=
  "Table " ++ tn ++ " does not exist."

/-- Diagnostic for a missing source column. -/
def columnMsg (cn tn : String) : String :=
  "Column " ++ cn ++ " does not exist in table " ++ tn ++ "."

/-- Diagnostic for a table without a primary key. -/
def pkMsg (tn : String) : String :=
  "No primary key found for table " ++ tn ++ "."

/-- Diagnostic printed by the per-row `except` clause
(`print(f"Error processing row with {pk_column} = {id}: {e}")`). -/
def errMsg (pkCol : String) (id : Nat) (e : String) : String :=
  "Error processing row with " ++ pkCol ++ " = " ++ toString id ++ ": " ++ e

/-- Progress line printed after each batch commit. -/
def batchMsg (k total : Nat) : String :=
  "Processed " ++ toString k ++ " rows in this batch, total: " ++ toString total

/-- Final line of a run that reaches the end of the `try` block. -/
def doneMsg : String := "Embedding generation completed."

/-- Effect of `UPDATE {table} SET {embedding_column} = %s WHERE {pk_column} = %s`:
every row whose primary-key value matches gets the vector. -/
def applyUpdate (tbl : List Row) (pk : Nat) (v : Vec) : List Row :=
  tbl.map (fun r => if r.pk = pk then { r with embedding := some v } else r)

/-- The body of the per-row `for` loop (lines 70–84 of `embedder.py`): skip a
row whose text is NULL; otherwise call the provider and issue the point
update, catching a failure of either locally and printing a diagnostic that
names the row's primary key.  Returns the new table state and the events of
this row. -/
def processRow (provider : Provider) (updateFails : Nat → Option String)
    (pkCol : String) (tbl : List Row) (r : Row) : List Row × List Event :=
  match r.text with
  | none => (tbl, [])
  | some t =>
    match provider t with
    | Except.error e =>
      (tbl, [Event.providerCall t, Event.print (errMsg pkCol r.pk e)])
    | Except.ok v =>
      match updateFails r.pk with
      | some e =>
        (tbl, [Event.providerCall t, Event.update r.pk,
               Event.print (errMsg pkCol r.pk e)])
      | none =>
        (applyUpdate tbl r.pk v, [Event.providerCall t, Event.update r.pk])

/-- Process every row of one fetched chunk in order, threading the table
state and concatenating the per-row events. -/
def processChunk (provider : Provider) (updateFails : Nat → Option String)
    (pkCol : String) : List Row → List Row → List Row × List Event
  | tbl, [] => (tbl, [])
  | tbl, r :: rs =>
    let p := processRow provider updateFails pkCol tbl r
    let q := processChunk provider updateFails pkCol p.1 rs
    (q.1, p.2 ++ q.2)

/-- The `while True` fetch loop (lines 65–87 of `embedder.py`): fetch up to
`bs` rows from the cursor over `pending`; an empty fetch breaks the loop;
otherwise process the chunk, commit, bump the cumulative counter, print the
progress line and continue.  Returns the final table state, the loop's event
trace and the final value of `total_processed`. -/
def backfillLoop (provider : Provider) (updateFails : Nat → Option String)
    (pkCol : String) (bs : Nat) (tbl : List Row) (pending : List Row)
    (total : Nat) : List Row × List Event × Nat :=
  if h : pending.take bs = [] then
    (tbl, [Event.fetch 0], total)
  else
    let chunk := pending.take bs
    let p := processChunk provider updateFails pkCol tbl chunk
    let rest := backfillLoop provider updateFails pkCol bs p.1
      (pending.drop bs) (total + chunk.length)
    (rest.1,
     Event.fetch chunk.length ::
       (p.2 ++ Event.commit ::
         Event.print (batchMsg chunk.length (total + chunk.length)) :: rest.2.1),
     rest.2.2)
termination_by pending.length
decreasing_by
  simp only [List.length_drop]
  rcases pending with _ | ⟨a, l⟩
  · simp at h
  · rcases bs with _ | b
    · simp at h
    · simp
      omega

/-- Result of a backfill run: the final table rows, the event trace, and the
final cumulative `total_processed`. -/
structure RunResult where
  rows : List Row
  trace : List Event
  total : Nat
  deriving DecidableEq, Repr

/-- The body of the outer `try` of `create_embeddings` (lines 20–92 of
`embedder.py`): connect (a connection failure raises `psycopg2.Error`), run
the three preflight checks in order with an early `return` on failure, add
the vector column and commit, declare the cursor over rows whose embedding
column is NULL and commit, run the fetch loop, close the cursor, commit, and
print the completion line. -/
def create_embeddings_body (cat : Catalog) (connectErr : Option String)
    (provider : Provider) (updateFails : Nat → Option String)
    (tableName columnName : String) (bs vectorDim : Nat) (rows : List Row) :
    Except PyExn RunResult :=
  match connectErr with
  | some e => Except.error (PyExn.dbError e)
  | none =>
    if cat.tableExists = false then
      Except.ok ⟨rows, [Event.checkTable false, Event.print (tableMsg tableName)], 0⟩
    else if cat.columnExists = false then
      Except.ok ⟨rows, [Event.checkTable true, Event.checkColumn false,
                        Event.print (columnMsg columnName tableName)], 0⟩
    else
      match cat.pkColumns with
      | [] =>
        Except.ok ⟨rows, [Event.checkTable true, Event.checkColumn true,
                          Event.checkPk false, Event.print (pkMsg tableName)], 0⟩
      | pkCol :: _ =>
        let pending := rows.filter (fun r => r.embedding.isNone)
        let res := backfillLoop provider updateFails pkCol bs rows pending 0
        Except.ok ⟨res.1,
          Event.checkTable true :: Event.checkColumn true :: Event.checkPk true ::
            Event.alterTable vectorDim :: Event.commit ::
            Event.declareCursor :: Event.commit ::
            (res.2.1 ++ [Event.closeCursor, Event.commit, Event.print doneMsg]),
          res.2.2⟩

/-- Function `create_embeddings` of `embedder.py`: the body wrapped in
`try ... except psycopg2.Error ... except Exception ...` — a raised exception
is caught, its diagnostic printed, and the function returns normally. -/
def create_embeddings (cat : Catalog) (connectErr : Option String)
    (provider : Provider) (updateFails : Nat → Option String)
    (tableName columnName : String) (bs vectorDim : Nat) (rows : List Row) :
    RunResult :=
  match create_embeddings_body cat connectErr provider updateFails
      tableName columnName bs vectorDim rows with
  | Except.ok r => r
  | Except.error e => ⟨rows, [Event.print (catchDiag e)], 0⟩

/-! ### The query tool (`embedder_test.py`) -/

/-- Schema facts queried by `semantic_search`: table existence, text-column
existence and embedding-column existence. -/
structure QueryCatalog where
  tableExists : Bool
  textColumnExists : Bool
  embColumnExists : Bool
  deriving DecidableEq, Repr

/-- Observable actions of a query run, in program order. -/
inductive QEvent where
  | connect (ok : Bool)
  | providerCall (input : String)
  | checkTable (ok : Bool)
  | checkColumn (name : String) (ok : Bool)
  | rankingQuery
  | print (msg : String)
  deriving DecidableEq, Repr

/-- Diagnostic for a failed database connection in query mode. -/
def connMsg (e : String) : String := "Database connection error: " ++ e

/-- Diagnostic for a failed embedding of the search phrase. -/
def phraseMsg (e : String) : String :=
  "Error generating embedding for search phrase: " ++ e

/-- Diagnostic for the missing-columns abort of query mode. -/
def colsMsg (cn ecn tn : String) : String :=
  "One or both columns (" ++ cn ++ ", " ++ ecn ++ ") do not exist in table "
    ++ tn ++ "."

/-- Diagnostic for a failed ranking query. -/
def queryErrMsg (e : String) : String := "Error executing search query: " ++ e

/-- Semantics of the ranking query (lines 60–66 of `embedder_test.py`):
`SELECT col, 1 - (emb <=> q) FROM t WHERE emb IS NOT NULL ORDER BY emb <=> q
LIMIT k`.  Rows with a NULL embedding column are excluded, the rest are
sorted ascending by distance to the query vector, the first `lim` are kept,
and each is returned with similarity `1 - distance`.  The distance operator
`<=>` of the database is an oracle `dist`. -/
def rankResults (dist : Vec → Vec → ℚ) (q : Vec) (lim : Nat)
    (rows : List Row) : List (Option String × ℚ) :=
  ((((rows.filterMap (fun r =>
      match r.embedding with
      | some v => some (r.text, dist v q)
      | none => none)).mergeSort
        (fun a b => decide (a.2 ≤ b.2))).take lim).map
    (fun pr => (pr.1, 1 - pr.2)))

/-- Function `semantic_search` of `embedder_test.py`, in program order: connect;
embed the search phrase with the provider; check the table exists; check the
text column and the embedding column exist; run the ranking query.  Every
failure prints a diagnostic and returns without results.  Returns the result
rows (`none` on any abort path) and the event trace. -/
def semantic_search (cat : QueryCatalog) (connectErr : Option String)
    (provider : Provider) (dist : Vec → Vec → ℚ) (queryErr : Option String)
    (tableName columnName phrase : String) (lim : Nat) (rows : List Row) :
    Option (List (Option String × ℚ)) × List QEvent :=
  match connectErr with
  | some e => (none, [QEvent.connect false, QEvent.print (connMsg e)])
  | none =>
    match provider phrase with
    | Except.error e =>
      (none, [QEvent.connect true, QEvent.providerCall phrase,
              QEvent.print (phraseMsg e)])
    | Except.ok q =>
      if cat.tableExists = false then
        (none, [QEvent.connect true, QEvent.providerCall phrase,
                QEvent.checkTable false, QEvent.print (tableMsg tableName)])
      else
        let ecn := columnName ++ "_embeddings"
        let pre := [QEvent.connect true, QEvent.providerCall phrase,
                    QEvent.checkTable true,
                    QEvent.checkColumn columnName cat.textColumnExists,
                    QEvent.checkColumn ecn cat.embColumnExists]
        if cat.textColumnExists = false ∨ cat.embColumnExists = false then
          (none, pre ++ [QEvent.print (colsMsg columnName ecn tableName)])
        else
          match queryErr with
          | some e =>
            (none, pre ++ [QEvent.rankingQuery, QEvent.print (queryErrMsg e)])
          | none =>
            (some (rankResults dist q lim rows), pre ++ [QEvent.rankingQuery])

/-! ### Derived views of the backfill loop, used to state and prove
properties.  `rowOutcome` and `rowEvents` split `processRow` into its effect
on the table and its emitted events; `runRows` is the table state threaded
through a list of fetched rows. -/

/-- The vector a row ends up with after its iteration of the `for` loop:
`none` when the text is NULL, the provider call fails, or the point update
fails; `some v` when the provider returned `v` and the update succeeded. -/
def rowOutcome (provider : Provider) (updateFails : Nat → Option String)
    (r : Row) : Option Vec :=
  match r.text with
  | none => none
  | some t =>
    match provider t with
    | Except.error _ => none
    | Except.ok v =>
      match updateFails r.pk with
      | some _ => none
      | none => some v

/-- The events one row's iteration of the `for` loop emits. -/
def rowEvents (provider : Provider) (updateFails : Nat → Option String)
    (pkCol : String) (r : Row) : List Event :=
  match r.text with
  | none => []
  | some t =>
    match provider t with
    | Except.error e => [Event.providerCall t, Event.print (errMsg pkCol r.pk e)]
    | Except.ok _ =>
      match updateFails r.pk with
      | some e => [Event.providerCall t, Event.update r.pk,
                   Event.print (errMsg pkCol r.pk e)]
      | none => [Event.providerCall t, Event.update r.pk]

/-- Effect of one row's iteration on the table state. -/
def stepRow (provider : Provider) (updateFails : Nat → Option String)
    (tbl : List Row) (r : Row) : List Row :=
  match rowOutcome provider updateFails r with
  | some v => applyUpdate tbl r.pk v
  | none => tbl

/-- Table state after processing a list of fetched rows in order. -/
def runRows (provider : Provider) (updateFails : Nat → Option String)
    (tbl : List Row) (l : List Row) : List Row :=
  l.foldl (stepRow provider updateFails) tbl

/-- Number of `update` events in a trace. -/
def countUpdates : List Event → Nat
  | [] => 0
  | Event.update _ :: tr => countUpdates tr + 1
  | _ :: tr => countUpdates tr

/-- A trace fragment containing no `commit` event. -/
def commitFree : List Event → Bool
  | [] => true
  | Event.commit :: _ => false
  | _ :: tr => commitFree tr

/-- Checks that a trace never accumulates more than `bs` issued row updates
inside one transaction: `c` is the number of updates issued since the last
commit. -/
def commitsBounded (bs : Nat) : Nat → List Event → Bool
  | _, [] => true
  | c, Event.update _ :: tr => decide (c + 1 ≤ bs) && commitsBounded bs (c + 1) tr
  | _, Event.commit :: tr => commitsBounded bs 0 tr
  | c, _ :: tr => commitsBounded bs c tr

/-- Events that write to the database: the ALTER TABLE and row updates. -/
def isWrite : Event → Bool
  | Event.alterTable _ => true
  | Event.update _ => true
  | _ => false

/-- Whether a query-mode event is a call to the embedding provider. -/
def isProviderCallQ : QEvent → Bool
  | QEvent.providerCall _ => true
  | _ => false

/-- The ordering property claimed of query mode: every embedding-provider
call in the trace is preceded by a confirmed table-existence check. -/
def checkBeforeProvider (tr : List QEvent) : Prop :=
  ∀ i : Fin tr.length, isProviderCallQ (tr.get i) = true →
    ∃ j : Fin tr.length, j.val < i.val ∧ tr.get j = QEvent.checkTable true

instance checkBeforeProviderDecidable (tr : List QEvent) :
    Decidable (checkBeforeProvider tr) :=
  inferInstanceAs (Decidable (∀ i : Fin tr.length,
    isProviderCallQ (tr.get i) = true →
      ∃ j : Fin tr.length, j.val < i.val ∧ tr.get j = QEvent.checkTable true))

/-! ### Lemmas about one row and one chunk -/

theorem Row.ext2 (a b : Row) (h1 : a.pk = b.pk) (h2 : a.text = b.text)
    (h3 : a.embedding = b.embedding) : a = b := by
  cases a
  cases b
  simp only [Row.mk.injEq]
  exact ⟨h1, h2, h3⟩

theorem processRow_eq (p : Provider) (uf : Nat → Option String) (pkCol : String)
    (tbl : List Row) (r : Row) :
    processRow p uf pkCol tbl r = (stepRow p uf tbl r, rowEvents p uf pkCol r) := by
  cases htext : r.text with
  | none => simp [processRow, stepRow, rowOutcome, rowEvents, htext]
  | some t =>
    cases hp : p t with
    | error e => simp [processRow, stepRow, rowOutcome, rowEvents, htext, hp]
    | ok v =>
      cases hu : uf r.pk with
      | none => simp [processRow, stepRow, rowOutcome, rowEvents, htext, hp, hu]
      | some e => simp [processRow, stepRow, rowOutcome, rowEvents, htext, hp, hu]

theorem processChunk_fst (p : Provider) (uf : Nat → Option String) (pkCol : String)
    (l : List Row) (tbl : List Row) :
    (processChunk p uf pkCol tbl l).1 = runRows p uf tbl l := by
  induction l generalizing tbl with
  | nil => rfl
  | cons r rs ih =>
    simp only [processChunk, processRow_eq, runRows, List.foldl_cons]
    exact ih (stepRow p uf tbl r)

theorem processChunk_snd (p : Provider) (uf : Nat → Option String) (pkCol : String)
    (l : List Row) (tbl : List Row) :
    (processChunk p uf pkCol tbl l).2
      = (l.map (rowEvents p uf pkCol)).foldr (· ++ ·) [] := by
  induction l generalizing tbl with
  | nil => rfl
  | cons r rs ih =>
    simp only [processChunk, processRow_eq, List.map_cons, List.foldr_cons]
    rw [ih (stepRow p uf tbl r)]

theorem processChunk_trace_mem (p : Provider) (uf : Nat → Option String)
    (pkCol : String) (l : List Row) (tbl : List Row) (r : Row) (e : Event)
    (hr : r ∈ l) (he : e ∈ rowEvents p uf pkCol r) :
    e ∈ (processChunk p uf pkCol tbl l).2 := by
  induction l generalizing tbl with
  | nil => cases hr
  | cons a rs ih =>
    simp only [processChunk, processRow_eq]
    rcases List.mem_cons.mp hr with h | h
    · subst h
      exact List.mem_append.mpr (Or.inl he)
    · exact List.mem_append.mpr (Or.inr (ih (stepRow p uf tbl a) h))

theorem rowEvents_no_close (p : Provider) (uf : Nat → Option String)
    (pkCol : String) (r : Row) :
    Event.closeCursor ∉ rowEvents p uf pkCol r := by
  cases htext : r.text with
  | none => simp [rowEvents, htext]
  | some t =>
    cases hp : p t with
    | error e => simp [rowEvents, htext, hp]
    | ok v =>
      cases hu : uf r.pk with
      | none => simp [rowEvents, htext, hp, hu]
      | some e => simp [rowEvents, htext, hp, hu]

theorem rowEvents_commitFree (p : Provider) (uf : Nat → Option String)
    (pkCol : String) (r : Row) :
    commitFree (rowEvents p uf pkCol r) = true := by
  cases htext : r.text with
  | none => simp [rowEvents, htext, commitFree]
  | some t =>
    cases hp : p t with
    | error e => simp [rowEvents, htext, hp, commitFree]
    | ok v =>
      cases hu : uf r.pk with
      | none => simp [rowEvents, htext, hp, hu, commitFree]
      | some e => simp [rowEvents, htext, hp, hu, commitFree]

theorem rowEvents_countUpdates (p : Provider) (uf : Nat → Option String)
    (pkCol : String) (r : Row) :
    countUpdates (rowEvents p uf pkCol r) ≤ 1 := by
  cases htext : r.text with
  | none => simp [rowEvents, htext, countUpdates]
  | some t =>
    cases hp : p t with
    | error e => simp [rowEvents, htext, hp, countUpdates]
    | ok v =>
      cases hu : uf r.pk with
      | none => simp [rowEvents, htext, hp, hu, countUpdates]
      | some e => simp [rowEvents, htext, hp, hu, countUpdates]

theorem rowOutcome_some_provider (p : Provider) (uf : Nat → Option String)
    (r : Row) (v : Vec) (h : rowOutcome p uf r = some v) :
    ∃ t, r.text = some t ∧ p t = Except.ok v ∧ uf r.pk = none := by
  cases htext : r.text with
  | none => simp [rowOutcome, htext] at h
  | some t =>
    cases hp : p t with
    | error e => simp [rowOutcome, htext, hp] at h
    | ok w =>
      cases hu : uf r.pk with
      | some e => simp [rowOutcome, htext, hp, hu] at h
      | none =>
        simp [rowOutcome, htext, hp, hu] at h
        exact ⟨t, rfl, by rw [hp, h], rfl⟩

theorem rowOutcome_congr (p : Provider) (uf : Nat → Option String) (r r2 : Row)
    (ht : r.text = r2.text) (hpk : r.pk = r2.pk) :
    rowOutcome p uf r = rowOutcome p uf r2 := by
  unfold rowOutcome
  rw [ht, hpk]

/-! ### Lemmas about the table state fold -/

theorem applyUpdate_length (tbl : List Row) (pk : Nat) (v : Vec) :
    (applyUpdate tbl pk v).length = tbl.length := by
  simp [applyUpdate]

theorem stepRow_length (p : Provider) (uf : Nat → Option String)
    (tbl : List Row) (r : Row) : (stepRow p uf tbl r).length = tbl.length := by
  cases h : rowOutcome p uf r with
  | none => simp [stepRow, h]
  | some v => simp [stepRow, h, applyUpdate_length]

theorem runRows_length (p : Provider) (uf : Nat → Option String)
    (l : List Row) (tbl : List Row) :
    (runRows p uf tbl l).length = tbl.length := by
  induction l generalizing tbl with
  | nil => rfl
  | cons r rs ih =>
    simp only [runRows, List.foldl_cons]
    rw [show List.foldl (stepRow p uf) (stepRow p uf tbl r) rs
          = runRows p uf (stepRow p uf tbl r) rs from rfl,
        ih (stepRow p uf tbl r), stepRow_length]

theorem applyUpdate_getElem (tbl : List Row) (pk : Nat) (v : Vec) (i : Nat)
    (r0 : Row) (h : tbl[i]? = some r0) :
    (applyUpdate tbl pk v)[i]?
      = some (if r0.pk = pk then { r0 with embedding := some v } else r0) := by
  simp [applyUpdate, List.getElem?_map, h]

theorem stepRow_getElem (p : Provider) (uf : Nat → Option String)
    (tbl : List Row) (r : Row) (i : Nat) (r0 : Row) (h : tbl[i]? = some r0) :
    ∃ r1, (stepRow p uf tbl r)[i]? = some r1 ∧ r1.pk = r0.pk ∧
      r1.text = r0.text ∧
      (r1.embedding = r0.embedding ∨
        ∃ v, rowOutcome p uf r = some v ∧ r1.embedding = some v) := by
  cases ho : rowOutcome p uf r with
  | none => exact ⟨r0, by simp only [stepRow, ho]; exact h, rfl, rfl, Or.inl rfl⟩
  | some v =>
    refine ⟨if r0.pk = r.pk then { r0 with embedding := some v } else r0,
      by simp only [stepRow, ho]; exact applyUpdate_getElem tbl r.pk v i r0 h,
      ?_, ?_, ?_⟩
    · split <;> rfl
    · split <;> rfl
    · split
      · exact Or.inr ⟨v, rfl, rfl⟩
      · exact Or.inl rfl

theorem stepRow_set (p : Provider) (uf : Nat → Option String) (tbl : List Row)
    (r : Row) (v : Vec) (i : Nat) (r0 : Row) (h : tbl[i]? = some r0)
    (ho : rowOutcome p uf r = some v) (hpk : r0.pk = r.pk) :
    (stepRow p uf tbl r)[i]? = some { r0 with embedding := some v } := by
  simp only [stepRow, ho]
  rw [applyUpdate_getElem tbl r.pk v i r0 h]
  simp [hpk]

theorem stepRow_untouched (p : Provider) (uf : Nat → Option String)
    (tbl : List Row) (r : Row) (i : Nat) (r0 : Row) (h : tbl[i]? = some r0)
    (hne : r0.pk ≠ r.pk) :
    (stepRow p uf tbl r)[i]? = some r0 := by
  cases ho : rowOutcome p uf r with
  | none => simp only [stepRow, ho]; exact h
  | some v =>
    simp only [stepRow, ho]
    rw [applyUpdate_getElem tbl r.pk v i r0 h]
    simp [hne]

theorem runRows_getElem (p : Provider) (uf : Nat → Option String)
    (l : List Row) (tbl : List Row) (i : Nat) (r0 : Row)
    (h : tbl[i]? = some r0) :
    ∃ r1, (runRows p uf tbl l)[i]? = some r1 ∧ r1.pk = r0.pk ∧
      r1.text = r0.text ∧
      (r1.embedding = r0.embedding ∨
        ∃ r ∈ l, ∃ v, rowOutcome p uf r = some v ∧ r1.embedding = some v) := by
  induction l generalizing tbl r0 with
  | nil => exact ⟨r0, h, rfl, rfl, Or.inl rfl⟩
  | cons a rs ih =>
    obtain ⟨r1, h1, hpk1, ht1, he1⟩ := stepRow_getElem p uf tbl a i r0 h
    obtain ⟨r2, h2, hpk2, ht2, he2⟩ := ih (stepRow p uf tbl a) r1 h1
    refine ⟨r2, h2, hpk2.trans hpk1, ht2.trans ht1, ?_⟩
    rcases he2 with he2 | ⟨r, hr, v, hv, he2⟩
    · rcases he1 with he1 | ⟨v, hv, he1⟩
      · exact Or.inl (he2.trans he1)
      · exact Or.inr ⟨a, List.mem_cons_self a rs, v, hv, he2.trans he1⟩
    · exact Or.inr ⟨r, List.mem_cons_of_mem a hr, v, hv, he2⟩

theorem runRows_untouched (p : Provider) (uf : Nat → Option String)
    (l : List Row) (tbl : List Row) (i : Nat) (r0 : Row)
    (h : tbl[i]? = some r0) (hne : ∀ r ∈ l, r.pk ≠ r0.pk) :
    (runRows p uf tbl l)[i]? = some r0 := by
  induction l generalizing tbl with
  | nil => exact h
  | cons a rs ih =>
    have h1 : (stepRow p uf tbl a)[i]? = some r0 :=
      stepRow_untouched p uf tbl a i r0 h
        (fun hc => hne a (List.mem_cons_self a rs) hc.symm)
    exact ih (stepRow p uf tbl a) h1 (fun r hr => hne r (List.mem_cons_of_mem a hr))

theorem runRows_isSome (p : Provider) (uf : Nat → Option String)
    (l : List Row) (tbl : List Row) (i : Nat) (r0 : Row)
    (h : tbl[i]? = some r0) (hs : r0.embedding.isSome = true) :
    ∃ r1, (runRows p uf tbl l)[i]? = some r1 ∧ r1.embedding.isSome = true := by
  obtain ⟨r1, h1, _, _, he⟩ := runRows_getElem p uf l tbl i r0 h
  refine ⟨r1, h1, ?_⟩
  rcases he with he | ⟨r, _, v, _, he⟩
  · rw [he]; exact hs
  · rw [he]; rfl

theorem runRows_hit (p : Provider) (uf : Nat → Option String)
    (l : List Row) (tbl : List Row) (i : Nat) (r0 : Row) (r : Row) (v : Vec)
    (h : tbl[i]? = some r0) (hr : r ∈ l) (ho : rowOutcome p uf r = some v)
    (hpk : r0.pk = r.pk) :
    ∃ r1, (runRows p uf tbl l)[i]? = some r1 ∧ r1.embedding.isSome = true := by
  induction l generalizing tbl r0 with
  | nil => cases hr
  | cons a rs ih =>
    rcases List.mem_cons.mp hr with heq | hmem
    · subst heq
      have h1 : (stepRow p uf tbl r)[i]? = some { r0 with embedding := some v } :=
        stepRow_set p uf tbl r v i r0 h ho hpk
      obtain ⟨r2, h2, hs2⟩ := runRows_isSome p uf rs (stepRow p uf tbl r)
        i { r0 with embedding := some v } h1 rfl
      exact ⟨r2, h2, hs2⟩
    · obtain ⟨r1, h1, hpk1, _, _⟩ := stepRow_getElem p uf tbl a i r0 h
      exact ih (stepRow p uf tbl a) r1 h1 hmem (hpk1.trans hpk)

theorem runRows_exact (p : Provider) (uf : Nat → Option String)
    (l : List Row) (tbl : List Row) (i : Nat) (r0 : Row) (r : Row) (v : Vec)
    (h : tbl[i]? = some r0) (hr : r ∈ l) (ho : rowOutcome p uf r = some v)
    (hpk : r0.pk = r.pk) (hnd : l.Pairwise (fun a b => a.pk ≠ b.pk)) :
    (runRows p uf tbl l)[i]? = some { r0 with embedding := some v } := by
  induction l generalizing tbl r0 with
  | nil => cases hr
  | cons a rs ih =>
    have hnd1 : ∀ b ∈ rs, a.pk ≠ b.pk := (List.pairwise_cons.mp hnd).1
    rcases List.mem_cons.mp hr with heq | hmem
    · subst heq
      have h1 : (stepRow p uf tbl r)[i]? = some { r0 with embedding := some v } :=
        stepRow_set p uf tbl r v i r0 h ho hpk
      exact runRows_untouched p uf rs (stepRow p uf tbl r) i _ h1
        (fun b hb hc => hnd1 b hb (by

          simpa [hpk] using hc.symm))
    · have hane : r0.pk ≠ a.pk := by
        rw [hpk]
        exact fun hc => hnd1 r hmem hc.symm
      have h1 : (stepRow p uf tbl a)[i]? = some r0 :=
        stepRow_untouched p uf tbl a i r0 h (fun hc => hane hc)
      exact ih (stepRow p uf tbl a) r0 h1 hmem hpk (List.pairwise_cons.mp hnd).2

theorem runRows_id (p : Provider) (uf : Nat → Option String)
    (l : List Row) (tbl : List Row)
    (hall : ∀ r ∈ l, rowOutcome p uf r = none) :
    runRows p uf tbl l = tbl := by
  induction l with
  | nil => rfl
  | cons a rs ih =>
    have ha : rowOutcome p uf a = none := hall a (List.mem_cons_self a rs)
    have hstep : stepRow p uf tbl a = tbl := by simp only [stepRow, ha]
    simp only [runRows, List.foldl_cons, hstep]
    exact ih (fun r hr => hall r (List.mem_cons_of_mem a hr))

theorem runRows_append (p : Provider) (uf : Nat → Option String)
    (tbl : List Row) (a b : List Row) :
    runRows p uf tbl (a ++ b) = runRows p uf (runRows p uf tbl a) b := by
  simp [runRows, List.foldl_append]

/-! ### Lemmas about the fetch loop -/

theorem backfillLoop_nil (p : Provider) (uf : Nat → Option String)
    (pkCol : String) (bs : Nat) (tbl pending : List Row) (total : Nat)
    (h : pending.take bs = []) :
    backfillLoop p uf pkCol bs tbl pending total = (tbl, [Event.fetch 0], total) := by
  rw [backfillLoop, dif_pos h]

theorem backfillLoop_ne (p : Provider) (uf : Nat → Option String)
    (pkCol : String) (bs : Nat) (tbl pending : List Row) (total : Nat)
    (h : ¬pending.take bs = []) :
    backfillLoop p uf pkCol bs tbl pending total =
      ((backfillLoop p uf pkCol bs
          (processChunk p uf pkCol tbl (pending.take bs)).1 (pending.drop bs)
          (total + (pending.take bs).length)).1,
       Event.fetch (pending.take bs).length ::
         ((processChunk p uf pkCol tbl (pending.take bs)).2 ++
           Event.commit ::
             Event.print (batchMsg (pending.take bs).length
               (total + (pending.take bs).length)) ::
               (backfillLoop p uf pkCol bs
                 (processChunk p uf pkCol tbl (pending.take bs)).1
                 (pending.drop bs) (total + (pending.take bs).length)).2.1),
       (backfillLoop p uf pkCol bs
         (processChunk p uf pkCol tbl (pending.take bs)).1 (pending.drop bs)
         (total + (pending.take bs).length)).2.2) := by
  rw [backfillLoop, dif_neg h]

theorem take_ne_nil_facts {α : Type} (bs : Nat) (l : List α)
    (h : ¬l.take bs = []) : 0 < bs ∧ 0 < l.length := by
  have h2 := List.take_eq_nil_iff.not.mp h
  push_neg at h2
  refine ⟨Nat.pos_of_ne_zero h2.1, ?_⟩
  cases l with
  | nil => exact absurd rfl h2.2
  | cons a t => simp

theorem backfillLoop_fst (p : Provider) (uf : Nat → Option String)
    (pkCol : String) (bs : Nat) (hbs : 0 < bs) (pending tbl : List Row)
    (total : Nat) :
    (backfillLoop p uf pkCol bs tbl pending total).1 = runRows p uf tbl pending := by
  suffices h : ∀ n (pending : List Row), pending.length ≤ n → ∀ tbl total,
      (backfillLoop p uf pkCol bs tbl pending total).1 = runRows p uf tbl pending from
    h pending.length pending le_rfl tbl total
  intro n
  induction n with
  | zero =>
    intro pending hlen tbl total
    have hp : pending = [] := List.length_eq_zero.mp (Nat.le_zero.mp hlen)
    subst hp
    rw [backfillLoop_nil p uf pkCol bs tbl [] total (by simp)]
    rfl
  | succ n ih =>
    intro pending hlen tbl total
    by_cases h : pending.take bs = []
    · have hp : pending = [] := by
        rcases List.take_eq_nil_iff.mp h with h0 | h0
        · omega
        · exact h0
      subst hp
      rw [backfillLoop_nil p uf pkCol bs tbl [] total (by simp)]
      rfl
    · obtain ⟨_, hpos⟩ := take_ne_nil_facts bs pending h
      have hdrop : (pending.drop bs).length ≤ n := by
        rw [List.length_drop]
        omega
      rw [backfillLoop_ne p uf pkCol bs tbl pending total h]
      simp only
      rw [ih (pending.drop bs) hdrop
            (processChunk p uf pkCol tbl (pending.take bs)).1
            (total + (pending.take bs).length)]
      rw [processChunk_fst]
      rw [← runRows_append, List.take_append_drop]

theorem backfillLoop_total (p : Provider) (uf : Nat → Option String)
    (pkCol : String) (bs : Nat) (hbs : 0 < bs) (pending tbl : List Row)
    (total : Nat) :
    (backfillLoop p uf pkCol bs tbl pending total).2.2 = total + pending.length := by
  suffices h : ∀ n (pending : List Row), pending.length ≤ n → ∀ tbl total,
      (backfillLoop p uf pkCol bs tbl pending total).2.2 = total + pending.length from
    h pending.length pending le_rfl tbl total
  intro n
  induction n with
  | zero =>
    intro pending hlen tbl total
    have hp : pending = [] := List.length_eq_zero.mp (Nat.le_zero.mp hlen)
    subst hp
    rw [backfillLoop_nil p uf pkCol bs tbl [] total (by simp)]
    simp
  | succ n ih =>
    intro pending hlen tbl total
    by_cases h : pending.take bs = []
    · have hp : pending = [] := by
        rcases List.take_eq_nil_iff.mp h with h0 | h0
        · omega
        · exact h0
      subst hp
      rw [backfillLoop_nil p uf pkCol bs tbl [] total (by simp)]
      simp
    · obtain ⟨_, hpos⟩ := take_ne_nil_facts bs pending h
      have hdrop : (pending.drop bs).length ≤ n := by
        rw [List.length_drop]
        omega
      rw [backfillLoop_ne p uf pkCol bs tbl pending total h]
      simp only
      rw [ih (pending.drop bs) hdrop
            (processChunk p uf pkCol tbl (pending.take bs)).1
            (total + (pending.take bs).length)]
      rw [List.length_take, List.length_drop]
      omega

theorem backfillLoop_trace_mem (p : Provider) (uf : Nat → Option String)
    (pkCol : String) (bs : Nat) (hbs : 0 < bs) (pending tbl : List Row)
    (total : Nat) (r : Row) (e : Event) (hr : r ∈ pending)
    (he : e ∈ rowEvents p uf pkCol r) :
    e ∈ (backfillLoop p uf pkCol bs tbl pending total).2.1 := by
  suffices h : ∀ n (pending : List Row), pending.length ≤ n → ∀ tbl total,
      r ∈ pending → e ∈ (backfillLoop p uf pkCol bs tbl pending total).2.1 from
    h pending.length pending le_rfl tbl total hr
  intro n
  induction n with
  | zero =>
    intro pending hlen tbl total hr2
    have hp : pending = [] := List.length_eq_zero.mp (Nat.le_zero.mp hlen)
    subst hp
    cases hr2
  | succ n ih =>
    intro pending hlen tbl total hr2
    by_cases h : pending.take bs = []
    · have hp : pending = [] := by
        rcases List.take_eq_nil_iff.mp h with h0 | h0
        · omega
        · exact h0
      subst hp
      cases hr2
    · obtain ⟨_, hpos⟩ := take_ne_nil_facts bs pending h
      have hdrop : (pending.drop bs).length ≤ n := by
        rw [List.length_drop]
        omega
      rw [backfillLoop_ne p uf pkCol bs tbl pending total h]
      simp only [List.mem_cons, List.mem_append]
      have hsplit : r ∈ pending.take bs ∨ r ∈ pending.drop bs := by
        rw [← List.mem_append, List.take_append_drop]
        exact hr2
      rcases hsplit with hmem | hmem
      · exact Or.inr (Or.inl (processChunk_trace_mem p uf pkCol
          (pending.take bs) tbl r e hmem he))
      · exact Or.inr (Or.inr (Or.inr (Or.inr
          (ih (pending.drop bs) hdrop
            (processChunk p uf pkCol tbl (pending.take bs)).1
            (total + (pending.take bs).length) hmem))))

theorem processChunk_no_close (p : Provider) (uf : Nat → Option String)
    (pkCol : String) (l : List Row) (tbl : List Row) :
    Event.closeCursor ∉ (processChunk p uf pkCol tbl l).2 := by
  induction l generalizing tbl with
  | nil => simp [processChunk]
  | cons a rs ih =>
    simp only [processChunk, processRow_eq, List.mem_append]
    intro hc
    rcases hc with hc | hc
    · exact rowEvents_no_close p uf pkCol a hc
    · exact ih (stepRow p uf tbl a) hc

theorem backfillLoop_no_close (p : Provider) (uf : Nat → Option String)
    (pkCol : String) (bs : Nat) (pending tbl : List Row) (total : Nat) :
    Event.closeCursor ∉ (backfillLoop p uf pkCol bs tbl pending total).2.1 := by
  suffices h : ∀ n (pending : List Row), pending.length ≤ n → ∀ tbl total,
      Event.closeCursor ∉ (backfillLoop p uf pkCol bs tbl pending total).2.1 from
    h pending.length pending le_rfl tbl total
  intro n
  induction n with
  | zero =>
    intro pending hlen tbl total
    have hp : pending = [] := List.length_eq_zero.mp (Nat.le_zero.mp hlen)
    subst hp
    rw [backfillLoop_nil p uf pkCol bs tbl [] total (by simp)]
    simp
  | succ n ih =>
    intro pending hlen tbl total
    by_cases h : pending.take bs = []
    · rw [backfillLoop_nil p uf pkCol bs tbl pending total h]
      simp
    · obtain ⟨hbs, hpos⟩ := take_ne_nil_facts bs pending h
      have hdrop : (pending.drop bs).length ≤ n := by
        rw [List.length_drop]
        omega
      rw [backfillLoop_ne p uf pkCol bs tbl pending total h]
      simp only [List.mem_cons, List.mem_append]
      intro hc
      rcases hc with hc | hc
      · cases hc
      rcases hc with hc | hc
      · exact processChunk_no_close p uf pkCol (pending.take bs) tbl hc
      rcases hc with hc | hc
      · cases hc
      rcases hc with hc | hc
      · cases hc
      · exact ih (pending.drop bs) hdrop
          (processChunk p uf pkCol tbl (pending.take bs)).1
          (total + (pending.take bs).length) hc

theorem backfillLoop_getLast (p : Provider) (uf : Nat → Option String)
    (pkCol : String) (bs : Nat) (pending tbl : List Row) (total : Nat) :
    (backfillLoop p uf pkCol bs tbl pending total).2.1.getLast?
      = some (Event.fetch 0) := by
  suffices h : ∀ n (pending : List Row), pending.length ≤ n → ∀ tbl total,
      (backfillLoop p uf pkCol bs tbl pending total).2.1.getLast?
        = some (Event.fetch 0) from
    h pending.length pending le_rfl tbl total
  intro n
  induction n with
  | zero =>
    intro pending hlen tbl total
    have hp : pending = [] := List.length_eq_zero.mp (Nat.le_zero.mp hlen)
    subst hp
    rw [backfillLoop_nil p uf pkCol bs tbl [] total (by simp)]
    rfl
  | succ n ih =>
    intro pending hlen tbl total
    by_cases h : pending.take bs = []
    · rw [backfillLoop_nil p uf pkCol bs tbl pending total h]
      rfl
    · obtain ⟨hbs, hpos⟩ := take_ne_nil_facts bs pending h
      have hdrop : (pending.drop bs).length ≤ n := by
        rw [List.length_drop]
        omega
      rw [backfillLoop_ne p uf pkCol bs tbl pending total h]
      have hrest := ih (pending.drop bs) hdrop
        (processChunk p uf pkCol tbl (pending.take bs)).1
        (total + (pending.take bs).length)
      simp only
      rw [show (Event.fetch (pending.take bs).length ::
            ((processChunk p uf pkCol tbl (pending.take bs)).2 ++
              Event.commit ::
                Event.print (batchMsg (pending.take bs).length
                  (total + (pending.take bs).length)) ::
                (backfillLoop p uf pkCol bs
                  (processChunk p uf pkCol tbl (pending.take bs)).1
                  (pending.drop bs) (total + (pending.take bs).length)).2.1))
          = (Event.fetch (pending.take bs).length ::
              ((processChunk p uf pkCol tbl (pending.take bs)).2 ++
                [Event.commit,
                 Event.print (batchMsg (pending.take bs).length
                   (total + (pending.take bs).length))])) ++
              (backfillLoop p uf pkCol bs
                (processChunk p uf pkCol tbl (pending.take bs)).1
                (pending.drop bs) (total + (pending.take bs).length)).2.1
        from by simp]
      rw [List.getLast?_append, hrest]
      rfl

/-! ### Lemmas about the per-transaction update bound -/

theorem countUpdates_append (a b : List Event) :
    countUpdates (a ++ b) = countUpdates a + countUpdates b := by
  induction a with
  | nil => simp [countUpdates]
  | cons e a ih =>
    cases e <;> simp [countUpdates, ih] <;> omega

theorem commitFree_append (a b : List Event) :
    commitFree (a ++ b) = (commitFree a && commitFree b) := by
  induction a with
  | nil => simp [commitFree]
  | cons e a ih =>
    cases e <;> simp [commitFree, ih]

theorem commitsBounded_append_free (bs : Nat) (a b : List Event) (c : Nat)
    (hf : commitFree a = true) (hc : c + countUpdates a ≤ bs) :
    commitsBounded bs c (a ++ b) = commitsBounded bs (c + countUpdates a) b := by
  induction a generalizing c with
  | nil => simp [countUpdates]
  | cons e a ih =>
    cases e with
    | update pk =>
      have hf2 : commitFree a = true := by simpa [commitFree] using hf
      have hcu : countUpdates (Event.update pk :: a) = countUpdates a + 1 := by
        simp [countUpdates]
      rw [hcu] at hc
      have h1 : c + 1 ≤ bs := by omega
      have h3 : c + 1 + countUpdates a ≤ bs := by omega
      simp only [List.cons_append, commitsBounded, List.append_eq]
      rw [decide_eq_true h1, Bool.true_and, ih (c + 1) hf2 h3]
      have h4 : c + 1 + countUpdates a = c + (countUpdates a + 1) := by omega
      rw [h4, hcu]
    | commit => simp [commitFree] at hf
    | checkTable ok =>
      have hf2 : commitFree a = true := by simpa [commitFree] using hf
      simp only [List.cons_append, commitsBounded, countUpdates]
      exact ih c hf2 (by simpa [countUpdates] using hc)
    | checkColumn ok =>
      have hf2 : commitFree a = true := by simpa [commitFree] using hf
      simp only [List.cons_append, commitsBounded, countUpdates]
      exact ih c hf2 (by simpa [countUpdates] using hc)
    | checkPk ok =>
      have hf2 : commitFree a = true := by simpa [commitFree] using hf
      simp only [List.cons_append, commitsBounded, countUpdates]
      exact ih c hf2 (by simpa [countUpdates] using hc)
    | alterTable dim =>
      have hf2 : commitFree a = true := by simpa [commitFree] using hf
      simp only [List.cons_append, commitsBounded, countUpdates]
      exact ih c hf2 (by simpa [countUpdates] using hc)
    | declareCursor =>
      have hf2 : commitFree a = true := by simpa [commitFree] using hf
      simp only [List.cons_append, commitsBounded, countUpdates]
      exact ih c hf2 (by simpa [countUpdates] using hc)
    | fetch k =>
      have hf2 : commitFree a = true := by simpa [commitFree] using hf
      simp only [List.cons_append, commitsBounded, countUpdates]
      exact ih c hf2 (by simpa [countUpdates] using hc)
    | providerCall s =>
      have hf2 : commitFree a = true := by simpa [commitFree] using hf
      simp only [List.cons_append, commitsBounded, countUpdates]
      exact ih c hf2 (by simpa [countUpdates] using hc)
    | closeCursor =>
      have hf2 : commitFree a = true := by simpa [commitFree] using hf
      simp only [List.cons_append, commitsBounded, countUpdates]
      exact ih c hf2 (by simpa [countUpdates] using hc)
    | print msg =>
      have hf2 : commitFree a = true := by simpa [commitFree] using hf
      simp only [List.cons_append, commitsBounded, countUpdates]
      exact ih c hf2 (by simpa [countUpdates] using hc)

theorem processChunk_commitFree (p : Provider) (uf : Nat → Option String)
    (pkCol : String) (l : List Row) (tbl : List Row) :
    commitFree (processChunk p uf pkCol tbl l).2 = true := by
  induction l generalizing tbl with
  | nil => simp [processChunk, commitFree]
  | cons a rs ih =>
    simp only [processChunk, processRow_eq]
    rw [commitFree_append, rowEvents_commitFree, ih (stepRow p uf tbl a)]
    rfl

theorem processChunk_countUpdates (p : Provider) (uf : Nat → Option String)
    (pkCol : String) (l : List Row) (tbl : List Row) :
    countUpdates (processChunk p uf pkCol tbl l).2 ≤ l.length := by
  induction l generalizing tbl with
  | nil => simp [processChunk, countUpdates]
  | cons a rs ih =>
    simp only [processChunk, processRow_eq]
    rw [countUpdates_append]
    have h1 := rowEvents_countUpdates p uf pkCol a
    have h2 := ih (stepRow p uf tbl a)
    simp only [List.length_cons]
    omega

theorem backfillLoop_commitsBounded (p : Provider) (uf : Nat → Option String)
    (pkCol : String) (bs : Nat) (pending tbl : List Row) (total : Nat)
    (tail : List Event) :
    commitsBounded bs 0 ((backfillLoop p uf pkCol bs tbl pending total).2.1 ++ tail)
      = commitsBounded bs 0 tail := by
  suffices h : ∀ n (pending : List Row), pending.length ≤ n → ∀ tbl total tail,
      commitsBounded bs 0
          ((backfillLoop p uf pkCol bs tbl pending total).2.1 ++ tail)
        = commitsBounded bs 0 tail from
    h pending.length pending le_rfl tbl total tail
  intro n
  induction n with
  | zero =>
    intro pending hlen tbl total tail
    have hp : pending = [] := List.length_eq_zero.mp (Nat.le_zero.mp hlen)
    subst hp
    rw [backfillLoop_nil p uf pkCol bs tbl [] total (by simp)]
    simp [commitsBounded]
  | succ n ih =>
    intro pending hlen tbl total tail
    by_cases h : pending.take bs = []
    · rw [backfillLoop_nil p uf pkCol bs tbl pending total h]
      simp [commitsBounded]
    · obtain ⟨hbs, hpos⟩ := take_ne_nil_facts bs pending h
      have hdrop : (pending.drop bs).length ≤ n := by
        rw [List.length_drop]
        omega
      rw [backfillLoop_ne p uf pkCol bs tbl pending total h]
      simp only [List.cons_append, List.append_assoc, List.cons_append]
      rw [show (commitsBounded bs 0
            (Event.fetch (pending.take bs).length ::
              ((processChunk p uf pkCol tbl (pending.take bs)).2 ++
                (Event.commit ::
                  Event.print (batchMsg (pending.take bs).length
                    (total + (pending.take bs).length)) ::
                  ((backfillLoop p uf pkCol bs
                    (processChunk p uf pkCol tbl (pending.take bs)).1
                    (pending.drop bs) (total + (pending.take bs).length)).2.1
                    ++ tail)))))
          = commitsBounded bs 0
              ((processChunk p uf pkCol tbl (pending.take bs)).2 ++
                (Event.commit ::
                  Event.print (batchMsg (pending.take bs).length
                    (total + (pending.take bs).length)) ::
                  ((backfillLoop p uf pkCol bs
                    (processChunk p uf pkCol tbl (pending.take bs)).1
                    (pending.drop bs) (total + (pending.take bs).length)).2.1
                    ++ tail)))
        from by simp [commitsBounded]]
      rw [commitsBounded_append_free bs _ _ 0
            (processChunk_commitFree p uf pkCol (pending.take bs) tbl)
            (by
              have h1 := processChunk_countUpdates p uf pkCol (pending.take bs) tbl
              have h2 : (pending.take bs).length ≤ bs := by
                rw [List.length_take]
                omega
              omega)]
      simp only [commitsBounded]
      exact ih (pending.drop bs) hdrop
        (processChunk p uf pkCol tbl (pending.take bs)).1
        (total + (pending.take bs).length) tail

/-! ### Unfolding lemmas for `create_embeddings` -/

theorem create_embeddings_ok (p : Provider) (uf : Nat → Option String)
    (tn cn : String) (bs dim : Nat) (rows : List Row) (pkCol : String)
    (rest : List String) :
    create_embeddings ⟨true, true, pkCol :: rest⟩ none p uf tn cn bs dim rows =
      ⟨(backfillLoop p uf pkCol bs rows
          (rows.filter (fun r => r.embedding.isNone)) 0).1,
       Event.checkTable true :: Event.checkColumn true :: Event.checkPk true ::
         Event.alterTable dim :: Event.commit :: Event.declareCursor ::
         Event.commit ::
         ((backfillLoop p uf pkCol bs rows
             (rows.filter (fun r => r.embedding.isNone)) 0).2.1 ++
           [Event.closeCursor, Event.commit, Event.print doneMsg]),
       (backfillLoop p uf pkCol bs rows
         (rows.filter (fun r => r.embedding.isNone)) 0).2.2⟩ := by
  rfl

theorem create_embeddings_no_table (p : Provider) (uf : Nat → Option String)
    (tn cn : String) (bs dim : Nat) (rows : List Row) (ce : Bool)
    (pks : List String) :
    create_embeddings ⟨false, ce, pks⟩ none p uf tn cn bs dim rows =
      ⟨rows, [Event.checkTable false, Event.print (tableMsg tn)], 0⟩ := by
  rfl

theorem create_embeddings_no_column (p : Provider) (uf : Nat → Option String)
    (tn cn : String) (bs dim : Nat) (rows : List Row) (pks : List String) :
    create_embeddings ⟨true, false, pks⟩ none p uf tn cn bs dim rows =
      ⟨rows, [Event.checkTable true, Event.checkColumn false,
              Event.print (columnMsg cn tn)], 0⟩ := by
  rfl

theorem create_embeddings_no_pk (p : Provider) (uf : Nat → Option String)
    (tn cn : String) (bs dim : Nat) (rows : List Row) :
    create_embeddings ⟨true, true, []⟩ none p uf tn cn bs dim rows =
      ⟨rows, [Event.checkTable true, Event.checkColumn true, Event.checkPk false,
              Event.print (pkMsg tn)], 0⟩ := by
  rfl

theorem create_embeddings_all_embedded (p : Provider) (uf : Nat → Option String)
    (tn cn : String) (bs dim : Nat) (rows : List Row) (pkCol : String)
    (rest : List String) (hall : ∀ r ∈ rows, r.embedding.isSome = true) :
    create_embeddings ⟨true, true, pkCol :: rest⟩ none p uf tn cn bs dim rows =
      ⟨rows,
       [Event.checkTable true, Event.checkColumn true, Event.checkPk true,
        Event.alterTable dim, Event.commit, Event.declareCursor, Event.commit,
        Event.fetch 0, Event.closeCursor, Event.commit, Event.print doneMsg],
       0⟩ := by
  have hnil : rows.filter (fun r => r.embedding.isNone) = [] := by
    rw [List.filter_eq_nil_iff]
    intro r hr
    have := hall r hr
    simp [Option.isNone_iff_eq_none]
    exact Option.isSome_iff_ne_none.mp this
  rw [create_embeddings_ok, hnil,
      backfillLoop_nil p uf pkCol bs rows [] 0 (by simp)]
  rfl

theorem create_embeddings_ok_getLast (p : Provider) (uf : Nat → Option String)
    (tn cn : String) (bs dim : Nat) (rows : List Row) (pkCol : String)
    (rest : List String) :
    (create_embeddings ⟨true, true, pkCol :: rest⟩ none p uf tn cn bs dim
        rows).trace.getLast? = some (Event.print doneMsg) := by
  rw [create_embeddings_ok]
  show (Event.checkTable true :: Event.checkColumn true :: Event.checkPk true ::
    Event.alterTable dim :: Event.commit :: Event.declareCursor :: Event.commit ::
    ((backfillLoop p uf pkCol bs rows
        (rows.filter (fun r => r.embedding.isNone)) 0).2.1 ++
      [Event.closeCursor, Event.commit, Event.print doneMsg])).getLast?
    = some (Event.print doneMsg)
  rw [show (Event.checkTable true :: Event.checkColumn true :: Event.checkPk true ::
        Event.alterTable dim :: Event.commit :: Event.declareCursor :: Event.commit ::
        ((backfillLoop p uf pkCol bs rows
            (rows.filter (fun r => r.embedding.isNone)) 0).2.1 ++
          [Event.closeCursor, Event.commit, Event.print doneMsg]))
      = ([Event.checkTable true, Event.checkColumn true, Event.checkPk true,
          Event.alterTable dim, Event.commit, Event.declareCursor, Event.commit] ++
          (backfillLoop p uf pkCol bs rows
            (rows.filter (fun r => r.embedding.isNone)) 0).2.1) ++
          [Event.closeCursor, Event.commit, Event.print doneMsg]
    from by simp]
  rw [List.getLast?_append]
  rfl

/-! ### Claim theorems -/

/-- C9: the backfill entry point never propagates an exception: whenever the
body of the `try` block raises an exception (modelled by
`create_embeddings_body` returning `Except.error`), `create_embeddings`
catches it (as `psycopg2.Error` or `Exception`), prints the corresponding
diagnostic, and returns normally with the table untouched. -/
theorem create_embeddings_catches (cat : Catalog) (connectErr : Option String)
    (p : Provider) (uf : Nat → Option String) (tn cn : String) (bs dim : Nat)
    (rows : List Row) (e : PyExn)
    (h : create_embeddings_body cat connectErr p uf tn cn bs dim rows
          = Except.error e) :
    create_embeddings cat connectErr p uf tn cn bs dim rows
      = ⟨rows, [Event.print (catchDiag e)], 0⟩ := by
  unfold create_embeddings
  rw [h]

/-- Witness for C9 at a concrete failing connection. -/
theorem create_embeddings_catches_witness :
    create_embeddings ⟨true, true, ["id"]⟩ (some "boom") (fun _ => Except.ok [])
        (fun _ => none) "t" "c" 5 3 []
      = ⟨[], [Event.print (catchDiag (PyExn.dbError "boom"))], 0⟩ :=
  create_embeddings_catches ⟨true, true, ["id"]⟩ (some "boom")
    (fun _ => Except.ok []) (fun _ => none) "t" "c" 5 3 []
    (PyExn.dbError "boom") rfl

/-- C7 counterexample: the claim requires the preflight to abort whenever
"exactly one primary-key column is discoverable" fails, performing no writes.
With a composite primary key the discovery returns two columns — not exactly
one — yet the run does not abort: it issues the ALTER TABLE write. -/
theorem create_embeddings_composite_pk_writes :
    (Catalog.mk true true ["a", "b"]).pkColumns.length ≠ 1 ∧
    Event.alterTable 3 ∈ (create_embeddings ⟨true, true, ["a", "b"]⟩ none
      (fun _ => Except.ok []) (fun _ => none) "t" "c" 5 3 []).trace := by
  constructor
  · decide
  · rw [create_embeddings_all_embedded (fun _ => Except.ok []) (fun _ => none)
        "t" "c" 5 3 [] "a" ["b"] (by intro r hr; cases hr)]
    simp

/-- C7 (amended): the backfill preflight runs its checks in order — table
exists, referenced column exists, at least one primary-key column is
discoverable (the first discovered column is used; the code does not verify
that it is unique) — and on any of these checks failing it returns
immediately with a diagnostic naming the missing object, leaving the rows
unchanged and performing no write (no ALTER TABLE, no UPDATE). -/
theorem create_embeddings_preflight_aborts (cat : Catalog) (p : Provider)
    (uf : Nat → Option String) (tn cn : String) (bs dim : Nat)
    (rows : List Row) :
    (cat.tableExists = false →
      create_embeddings cat none p uf tn cn bs dim rows
        = ⟨rows, [Event.checkTable false, Event.print (tableMsg tn)], 0⟩ ∧
      ∀ e ∈ [Event.checkTable false, Event.print (tableMsg tn)],
        isWrite e = false) ∧
    (cat.tableExists = true → cat.columnExists = false →
      create_embeddings cat none p uf tn cn bs dim rows
        = ⟨rows, [Event.checkTable true, Event.checkColumn false,
                  Event.print (columnMsg cn tn)], 0⟩ ∧
      ∀ e ∈ [Event.checkTable true, Event.checkColumn false,
             Event.print (columnMsg cn tn)], isWrite e = false) ∧
    (cat.tableExists = true → cat.columnExists = true → cat.pkColumns = [] →
      create_embeddings cat none p uf tn cn bs dim rows
        = ⟨rows, [Event.checkTable true, Event.checkColumn true,
                  Event.checkPk false, Event.print (pkMsg tn)], 0⟩ ∧
      ∀ e ∈ [Event.checkTable true, Event.checkColumn true,
             Event.checkPk false, Event.print (pkMsg tn)],
        isWrite e = false) := by
  rcases cat with ⟨te, ce, pks⟩
  refine ⟨?_, ?_, ?_⟩
  · intro h1
    have h1b : te = false := h1
    subst h1b
    exact ⟨create_embeddings_no_table p uf tn cn bs dim rows ce pks,
      by simp [isWrite]⟩
  · intro h1 h2
    have h1b : te = true := h1
    have h2b : ce = false := h2
    subst h1b
    subst h2b
    exact ⟨create_embeddings_no_column p uf tn cn bs dim rows pks,
      by simp [isWrite]⟩
  · intro h1 h2 h3
    have h1b : te = true := h1
    have h2b : ce = true := h2
    have h3b : pks = [] := h3
    subst h1b
    subst h2b
    subst h3b
    exact ⟨create_embeddings_no_pk p uf tn cn bs dim rows,
      by simp [isWrite]⟩

/-- Witness for C7 (amended) at a concrete missing table. -/
theorem create_embeddings_preflight_aborts_witness :
    create_embeddings ⟨false, true, ["id"]⟩ none (fun _ => Except.ok [])
        (fun _ => none) "tname" "cname" 5 3 []
      = ⟨[], [Event.checkTable false, Event.print (tableMsg "tname")], 0⟩ :=
  ((create_embeddings_preflight_aborts ⟨false, true, ["id"]⟩
    (fun _ => Except.ok []) (fun _ => none) "tname" "cname" 5 3 []).1 rfl).1

/-- C5: in every run, on every path, the number of row updates issued within
one transaction (between two consecutive commits) never exceeds the
configured batch size: the `commitsBounded` checker accepts the full event
trace of `create_embeddings` with bound `bs`. -/
theorem create_embeddings_batch_bound (cat : Catalog)
    (connectErr : Option String) (p : Provider) (uf : Nat → Option String)
    (tn cn : String) (bs dim : Nat) (rows : List Row) :
    commitsBounded bs 0
      (create_embeddings cat connectErr p uf tn cn bs dim rows).trace = true := by
  cases connectErr with
  | some e => rfl
  | none =>
    rcases cat with ⟨te, ce, pks⟩
    cases te
    · rfl
    · cases ce
      · rfl
      · cases pks with
        | nil => rfl
        | cons pkCol rest =>
          rw [create_embeddings_ok]
          show commitsBounded bs 0
            (Event.checkTable true :: Event.checkColumn true ::
              Event.checkPk true :: Event.alterTable dim :: Event.commit ::
              Event.declareCursor :: Event.commit ::
              ((backfillLoop p uf pkCol bs rows
                  (rows.filter (fun r => r.embedding.isNone)) 0).2.1 ++
                [Event.closeCursor, Event.commit, Event.print doneMsg])) = true
          simp only [commitsBounded]
          rw [backfillLoop_commitsBounded]
          rfl

/-- C4: when the preflight passes, the fetch loop terminates (its event trace
is a finite list whose last fetch returned zero rows), and after the loop the
iteration cursor is closed — exactly once, never earlier — and that release
is committed before the completion line is printed. -/
theorem create_embeddings_loop_terminates (cat : Catalog) (p : Provider)
    (uf : Nat → Option String) (tn cn : String) (bs dim : Nat)
    (rows : List Row) (pkCol : String) (rest : List String)
    (hte : cat.tableExists = true) (hce : cat.columnExists = true)
    (hpk : cat.pkColumns = pkCol :: rest) :
    ∃ pre, (create_embeddings cat none p uf tn cn bs dim rows).trace
        = pre ++ [Event.closeCursor, Event.commit, Event.print doneMsg] ∧
      Event.closeCursor ∉ pre ∧
      pre.getLast? = some (Event.fetch 0) := by
  rcases cat with ⟨te, ce, pks⟩
  have h1 : te = true := hte
  have h2 : ce = true := hce
  have h3 : pks = pkCol :: rest := hpk
  subst h1
  subst h2
  subst h3
  rw [create_embeddings_ok]
  refine ⟨[Event.checkTable true, Event.checkColumn true, Event.checkPk true,
           Event.alterTable dim, Event.commit, Event.declareCursor,
           Event.commit] ++
          (backfillLoop p uf pkCol bs rows
            (rows.filter (fun r => r.embedding.isNone)) 0).2.1, ?_, ?_, ?_⟩
  · simp
  · intro hmem
    rw [List.mem_append] at hmem
    rcases hmem with hmem | hmem
    · simp at hmem
    · exact backfillLoop_no_close p uf pkCol bs
        (rows.filter (fun r => r.embedding.isNone)) rows 0 hmem
  · rw [List.getLast?_append, backfillLoop_getLast]
    rfl

/-- Witness for C4 at a concrete passing preflight. -/
theorem create_embeddings_loop_terminates_witness :
    ∃ pre, (create_embeddings ⟨true, true, ["id"]⟩ none (fun _ => Except.ok [1])
        (fun _ => none) "t" "c" 5 3 []).trace
        = pre ++ [Event.closeCursor, Event.commit, Event.print doneMsg] ∧
      Event.closeCursor ∉ pre ∧
      pre.getLast? = some (Event.fetch 0) :=
  create_embeddings_loop_terminates ⟨true, true, ["id"]⟩ (fun _ => Except.ok [1])
    (fun _ => none) "t" "c" 5 3 [] "id" [] rfl rfl rfl

/-- C10: the cumulative processed-row count returned by a backfill run whose
preflight passes equals the number of rows fetched from the cursor — the
number of rows whose embedding column was NULL — regardless of how many rows
were skipped for NULL text or failed in the provider call or update (the
provider and update-failure oracles are universally quantified). -/
theorem create_embeddings_total_counts_fetched (cat : Catalog) (p : Provider)
    (uf : Nat → Option String) (tn cn : String) (bs dim : Nat)
    (rows : List Row) (pkCol : String) (rest : List String)
    (hte : cat.tableExists = true) (hce : cat.columnExists = true)
    (hpk : cat.pkColumns = pkCol :: rest) (hbs : 0 < bs) :
    (create_embeddings cat none p uf tn cn bs dim rows).total
      = (rows.filter (fun r => r.embedding.isNone)).length := by
  rcases cat with ⟨te, ce, pks⟩
  have h1 : te = true := hte
  have h2 : ce = true := hce
  have h3 : pks = pkCol :: rest := hpk
  subst h1
  subst h2
  subst h3
  rw [create_embeddings_ok]
  show (backfillLoop p uf pkCol bs rows
    (rows.filter (fun r => r.embedding.isNone)) 0).2.2
    = (rows.filter (fun r => r.embedding.isNone)).length
  rw [backfillLoop_total p uf pkCol bs hbs]
  simp

/-- Witness for C10: one NULL-text row (skipped, never embedded) and one
already-embedded row, with a provider that always fails: the counter still
counts the fetched row. -/
theorem create_embeddings_total_counts_fetched_witness :
    (create_embeddings ⟨true, true, ["id"]⟩ none (fun _ => Except.error "down")
        (fun _ => none) "t" "c" 5 3
        [{ pk := 1, text := none, embedding := none },
         { pk := 2, text := some "x", embedding := some [1] }]).total
      = (([{ pk := 1, text := none, embedding := none },
           { pk := 2, text := some "x", embedding := some [1] }] : List Row).filter
          (fun r => r.embedding.isNone)).length :=
  create_embeddings_total_counts_fetched ⟨true, true, ["id"]⟩
    (fun _ => Except.error "down") (fun _ => none) "t" "c" 5 3
    [{ pk := 1, text := none, embedding := none },
     { pk := 2, text := some "x", embedding := some [1] }]
    "id" [] rfl rfl rfl (by decide)

/-- C1 counterexample: querying a non-existent table does return no results,
but the embedding provider is invoked for the search phrase before the
table-existence check is made, so the claimed ordering (provider only after
the existence check is confirmed) is false on the code. -/
theorem semantic_search_provider_before_check :
    (semantic_search ⟨false, false, false⟩ none (fun _ => Except.ok [])
      (fun _ _ => 0) none "t" "c" "hello" 5 []).1 = none ∧
    ¬ checkBeforeProvider
        (semantic_search ⟨false, false, false⟩ none (fun _ => Except.ok [])
          (fun _ _ => 0) none "t" "c" "hello" 5 []).2 := by
  constructor
  · rfl
  · decide

/-- C1 (amended): if the named table does not exist (and connection and
phrase-embedding succeed), the query run returns no results and issues no
ranking query; the embedding provider, however, is invoked exactly once — for
the search phrase — and this happens before the failed table-existence
check, as the exact event trace shows. -/
theorem semantic_search_missing_table (cat : QueryCatalog) (p : Provider)
    (dist : Vec → Vec → ℚ) (queryErr : Option String)
    (tn cn phrase : String) (lim : Nat) (rows : List Row) (q : Vec)
    (hp : p phrase = Except.ok q) (ht : cat.tableExists = false) :
    (semantic_search cat none p dist queryErr tn cn phrase lim rows).1 = none ∧
    (semantic_search cat none p dist queryErr tn cn phrase lim rows).2
      = [QEvent.connect true, QEvent.providerCall phrase,
         QEvent.checkTable false, QEvent.print (tableMsg tn)] := by
  rcases cat with ⟨te, tc, ec⟩
  have h1 : te = false := ht
  subst h1
  simp [semantic_search, hp]

/-- Witness for C1 (amended) at a concrete non-existent table. -/
theorem semantic_search_missing_table_witness :
    (semantic_search ⟨false, true, true⟩ none (fun _ => Except.ok [1])
      (fun _ _ => 0) none "tbl" "col" "hi" 3 []).1 = none ∧
    (semantic_search ⟨false, true, true⟩ none (fun _ => Except.ok [1])
      (fun _ _ => 0) none "tbl" "col" "hi" 3 []).2
      = [QEvent.connect true, QEvent.providerCall "hi",
         QEvent.checkTable false, QEvent.print (tableMsg "tbl")] :=
  semantic_search_missing_table ⟨false, true, true⟩ (fun _ => Except.ok [1])
    (fun _ _ => 0) none "tbl" "col" "hi" 3 [] [1] rfl rfl

theorem create_embeddings_ok_rows (p : Provider) (uf : Nat → Option String)
    (tn cn : String) (bs dim : Nat) (rows : List Row) (pkCol : String)
    (rest : List String) :
    (create_embeddings ⟨true, true, pkCol :: rest⟩ none p uf tn cn bs dim
        rows).rows
      = (backfillLoop p uf pkCol bs rows
          (rows.filter (fun r => r.embedding.isNone)) 0).1 := by
  rfl

theorem create_embeddings_ok_total (p : Provider) (uf : Nat → Option String)
    (tn cn : String) (bs dim : Nat) (rows : List Row) (pkCol : String)
    (rest : List String) :
    (create_embeddings ⟨true, true, pkCol :: rest⟩ none p uf tn cn bs dim
        rows).total
      = (backfillLoop p uf pkCol bs rows
          (rows.filter (fun r => r.embedding.isNone)) 0).2.2 := by
  rfl

theorem create_embeddings_ok_trace_mem (p : Provider) (uf : Nat → Option String)
    (tn cn : String) (bs dim : Nat) (rows : List Row) (pkCol : String)
    (rest : List String) (ev : Event)
    (hev : ev ∈ (backfillLoop p uf pkCol bs rows
        (rows.filter (fun r => r.embedding.isNone)) 0).2.1) :
    ev ∈ (create_embeddings ⟨true, true, pkCol :: rest⟩ none p uf tn cn bs dim
        rows).trace := by
  rw [create_embeddings_ok]
  exact List.mem_cons_of_mem _ (List.mem_cons_of_mem _ (List.mem_cons_of_mem _
    (List.mem_cons_of_mem _ (List.mem_cons_of_mem _ (List.mem_cons_of_mem _
      (List.mem_cons_of_mem _ (List.mem_append_left _ hev)))))))

/-- C2: row-level failure isolation.  For every NULL-embedding row with
non-NULL text: if the provider call fails, or the provider succeeds but the
point update fails, a diagnostic naming that row's primary key appears in the
trace; if both succeed, the row appears embedded in the final table — for
every combination of failures of the other rows, since the provider and
update-failure oracles are universally quantified.  Moreover the run always
reaches its final completion line: no row failure aborts the batch or the
run. -/
theorem create_embeddings_row_isolation (cat : Catalog) (p : Provider)
    (uf : Nat → Option String) (tn cn : String) (bs dim : Nat)
    (rows : List Row) (pkCol : String) (rest : List String)
    (hte : cat.tableExists = true) (hce : cat.columnExists = true)
    (hpk : cat.pkColumns = pkCol :: rest) (hbs : 0 < bs)
    (hnd : rows.Pairwise (fun a b => a.pk ≠ b.pk)) :
    (∀ r ∈ rows, r.embedding = none → ∀ t, r.text = some t →
      (∀ e, p t = Except.error e →
        Event.print (errMsg pkCol r.pk e)
          ∈ (create_embeddings cat none p uf tn cn bs dim rows).trace) ∧
      (∀ v e, p t = Except.ok v → uf r.pk = some e →
        Event.print (errMsg pkCol r.pk e)
          ∈ (create_embeddings cat none p uf tn cn bs dim rows).trace) ∧
      (∀ v, p t = Except.ok v → uf r.pk = none →
        { r with embedding := some v }
          ∈ (create_embeddings cat none p uf tn cn bs dim rows).rows)) ∧
    (create_embeddings cat none p uf tn cn bs dim rows).trace.getLast?
      = some (Event.print doneMsg) := by
  rcases cat with ⟨te, ce, pks⟩
  have h1 : te = true := hte
  have h2 : ce = true := hce
  have h3 : pks = pkCol :: rest := hpk
  subst h1
  subst h2
  subst h3
  constructor
  · intro r hr hremb t htext
    have hpend : r ∈ rows.filter (fun r => r.embedding.isNone) := by
      rw [List.mem_filter]
      exact ⟨hr, by rw [hremb]; rfl⟩
    refine ⟨?_, ?_, ?_⟩
    · intro e he
      have hev : Event.print (errMsg pkCol r.pk e) ∈ rowEvents p uf pkCol r := by
        simp [rowEvents, htext, he]
      exact create_embeddings_ok_trace_mem p uf tn cn bs dim rows pkCol rest _
        (backfillLoop_trace_mem p uf pkCol bs hbs
          (rows.filter (fun r => r.embedding.isNone)) rows 0 r _ hpend hev)
    · intro v e hv hu
      have hev : Event.print (errMsg pkCol r.pk e) ∈ rowEvents p uf pkCol r := by
        simp [rowEvents, htext, hv, hu]
      exact create_embeddings_ok_trace_mem p uf tn cn bs dim rows pkCol rest _
        (backfillLoop_trace_mem p uf pkCol bs hbs
          (rows.filter (fun r => r.embedding.isNone)) rows 0 r _ hpend hev)
    · intro v hv hu
      obtain ⟨i, hi, hget⟩ := List.mem_iff_getElem.mp hr
      have hgq : rows[i]? = some r := by
        rw [List.getElem?_eq_getElem hi, hget]
      have ho : rowOutcome p uf r = some v := by
        simp [rowOutcome, htext, hv, hu]
      have hpair : (rows.filter (fun r => r.embedding.isNone)).Pairwise
          (fun a b => a.pk ≠ b.pk) := List.Pairwise.filter _ hnd
      have hfin := runRows_exact p uf
        (rows.filter (fun r => r.embedding.isNone)) rows i r r v
        hgq hpend ho rfl hpair
      rw [create_embeddings_ok_rows,
          backfillLoop_fst p uf pkCol bs hbs]
      obtain ⟨hlt, heq⟩ := List.getElem?_eq_some_iff.mp hfin
      rw [← heq]
      exact List.getElem_mem hlt
  · exact create_embeddings_ok_getLast p uf tn cn bs dim rows pkCol rest

/-- Witness for C2: one failing-provider row and one succeeding row in the
same batch; the succeeding row is still embedded and the failing row's
diagnostic is printed. -/
theorem create_embeddings_row_isolation_witness :
    (∀ r ∈ ([{ pk := 1, text := some "bad", embedding := none },
             { pk := 2, text := some "good", embedding := none }] : List Row),
      r.embedding = none → ∀ t, r.text = some t →
      (∀ e, (fun s => if s = "bad" then Except.error "boom"
              else Except.ok ([1] : Vec)) t = Except.error e →
        Event.print (errMsg "id" r.pk e)
          ∈ (create_embeddings ⟨true, true, ["id"]⟩ none
              (fun s => if s = "bad" then Except.error "boom"
                else Except.ok ([1] : Vec))
              (fun _ => none) "t" "c" 5 3
              [{ pk := 1, text := some "bad", embedding := none },
               { pk := 2, text := some "good", embedding := none }]).trace) ∧
      (∀ v e, (fun s => if s = "bad" then Except.error "boom"
              else Except.ok ([1] : Vec)) t = Except.ok v →
          (fun _ => (none : Option String)) r.pk = some e →
        Event.print (errMsg "id" r.pk e)
          ∈ (create_embeddings ⟨true, true, ["id"]⟩ none
              (fun s => if s = "bad" then Except.error "boom"
                else Except.ok ([1] : Vec))
              (fun _ => none) "t" "c" 5 3
              [{ pk := 1, text := some "bad", embedding := none },
               { pk := 2, text := some "good", embedding := none }]).trace) ∧
      (∀ v, (fun s => if s = "bad" then Except.error "boom"
              else Except.ok ([1] : Vec)) t = Except.ok v →
          (fun _ => (none : Option String)) r.pk = none →
        { r with embedding := some v }
          ∈ (create_embeddings ⟨true, true, ["id"]⟩ none
              (fun s => if s = "bad" then Except.error "boom"
                else Except.ok ([1] : Vec))
              (fun _ => none) "t" "c" 5 3
              [{ pk := 1, text := some "bad", embedding := none },
               { pk := 2, text := some "good", embedding := none }]).rows)) ∧
    (create_embeddings ⟨true, true, ["id"]⟩ none
        (fun s => if s = "bad" then Except.error "boom"
          else Except.ok ([1] : Vec))
        (fun _ => none) "t" "c" 5 3
        [{ pk := 1, text := some "bad", embedding := none },
         { pk := 2, text := some "good", embedding := none }]).trace.getLast?
      = some (Event.print doneMsg) :=
  create_embeddings_row_isolation ⟨true, true, ["id"]⟩
    (fun s => if s = "bad" then Except.error "boom" else Except.ok ([1] : Vec))
    (fun _ => none) "t" "c" 5 3
    [{ pk := 1, text := some "bad", embedding := none },
     { pk := 2, text := some "good", embedding := none }]
    "id" [] rfl rfl rfl (by decide) (by decide)

/-- C3: a fetched row whose text is NULL is skipped — its iteration changes
nothing and emits no event (no provider call, no update, no diagnostic) —
and, provided every vector the provider returns has the configured dimension,
every row that started with a NULL embedding ends the run with an embedding
that is either still NULL or a vector of exactly that dimension. -/
theorem create_embeddings_null_skip_dim (cat : Catalog) (p : Provider)
    (uf : Nat → Option String) (tn cn : String) (bs dim : Nat)
    (rows : List Row) (pkCol : String) (rest : List String)
    (hte : cat.tableExists = true) (hce : cat.columnExists = true)
    (hpk : cat.pkColumns = pkCol :: rest)
    (hdim : ∀ t v, p t = Except.ok v → v.length = dim) :
    (∀ tbl r, r.text = none → processRow p uf pkCol tbl r = (tbl, [])) ∧
    (∀ (i : Nat) (r0 : Row), rows[i]? = some r0 → r0.embedding = none →
      ∃ r1, (create_embeddings cat none p uf tn cn bs dim rows).rows[i]?
          = some r1 ∧
        (r1.embedding = none ∨
          ∃ v, r1.embedding = some v ∧ v.length = dim)) := by
  rcases cat with ⟨te, ce, pks⟩
  have h1 : te = true := hte
  have h2 : ce = true := hce
  have h3 : pks = pkCol :: rest := hpk
  subst h1
  subst h2
  subst h3
  constructor
  · intro tbl r hnone
    simp [processRow, hnone]
  · intro i r0 hq hremb
    rcases Nat.eq_zero_or_pos bs with h0 | hbs
    · subst h0
      have hr : (create_embeddings ⟨true, true, pkCol :: rest⟩ none p uf tn cn
          0 dim rows).rows = rows := by
        rw [create_embeddings_ok_rows,
            backfillLoop_nil p uf pkCol 0 rows _ 0 (by simp)]
      rw [hr]
      exact ⟨r0, hq, Or.inl hremb⟩
    · rw [create_embeddings_ok_rows, backfillLoop_fst p uf pkCol bs hbs]
      obtain ⟨r1, hr1, _, _, he1⟩ := runRows_getElem p uf
        (rows.filter (fun r => r.embedding.isNone)) rows i r0 hq
      refine ⟨r1, hr1, ?_⟩
      rcases he1 with he1 | ⟨r, _, v, hv, hsome⟩
      · exact Or.inl (he1.trans hremb)
      · obtain ⟨t, _, hpt, _⟩ := rowOutcome_some_provider p uf r v hv
        exact Or.inr ⟨v, hsome, hdim t v hpt⟩

/-- Witness for C3: a NULL-text row and a NULL-embedding row with text, a
provider returning 3-vectors, configured dimension 3. -/
theorem create_embeddings_null_skip_dim_witness :
    (∀ tbl r, r.text = none →
      processRow (fun _ => Except.ok ([1, 2, 3] : Vec)) (fun _ => none) "id"
        tbl r = (tbl, [])) ∧
    (∀ (i : Nat) (r0 : Row),
      ([{ pk := 1, text := none, embedding := none },
        { pk := 2, text := some "x", embedding := none }] : List Row)[i]?
        = some r0 → r0.embedding = none →
      ∃ r1, (create_embeddings ⟨true, true, ["id"]⟩ none
          (fun _ => Except.ok ([1, 2, 3] : Vec)) (fun _ => none) "t" "c" 5 3
          [{ pk := 1, text := none, embedding := none },
           { pk := 2, text := some "x", embedding := none }]).rows[i]?
          = some r1 ∧
        (r1.embedding = none ∨
          ∃ v, r1.embedding = some v ∧ v.length = 3)) :=
  create_embeddings_null_skip_dim ⟨true, true, ["id"]⟩
    (fun _ => Except.ok ([1, 2, 3] : Vec)) (fun _ => none) "t" "c" 5 3
    [{ pk := 1, text := none, embedding := none },
     { pk := 2, text := some "x", embedding := none }]
    "id" [] rfl rfl rfl (fun t v h => by
      simp only [Except.ok.injEq] at h
      rw [← h]
      rfl)

/-- C6 counterexample: a table with one row whose text is NULL.  The first
backfill run leaves the state unchanged (so running twice equals running
once), but the second run fetches and counts that still-NULL row again: it
processes 1 row, not the claimed zero. -/
theorem create_embeddings_second_run_nonzero :
    (create_embeddings ⟨true, true, ["id"]⟩ none (fun _ => Except.ok ([1] : Vec))
        (fun _ => none) "t" "c" 100 3
        [{ pk := 1, text := none, embedding := none }]).rows
      = [{ pk := 1, text := none, embedding := none }] ∧
    (create_embeddings ⟨true, true, ["id"]⟩ none (fun _ => Except.ok ([1] : Vec))
        (fun _ => none) "t" "c" 100 3
        (create_embeddings ⟨true, true, ["id"]⟩ none
          (fun _ => Except.ok ([1] : Vec)) (fun _ => none) "t" "c" 100 3
          [{ pk := 1, text := none, embedding := none }]).rows).total = 1 := by
  have hrows : (create_embeddings ⟨true, true, ["id"]⟩ none
      (fun _ => Except.ok ([1] : Vec)) (fun _ => none) "t" "c" 100 3
      [{ pk := 1, text := none, embedding := none }]).rows
      = [{ pk := 1, text := none, embedding := none }] := by
    rw [create_embeddings_ok_rows,
        backfillLoop_fst (fun _ => Except.ok ([1] : Vec)) (fun _ => none)
          "id" 100 (by decide)]
    rfl
  refine ⟨hrows, ?_⟩
  rw [hrows, create_embeddings_ok_total,
      backfillLoop_total (fun _ => Except.ok ([1] : Vec)) (fun _ => none)
        "id" 100 (by decide)]
  rfl

/-- C6 (amended): backfill selects only rows whose embedding column is NULL,
so (a) when every row is already embedded, a run processes zero rows,
changes nothing and terminates cleanly; (b) running backfill twice with no
intervening data changes (and deterministic provider and update-failure
behaviour) yields the same final state as running it once; and (c) the
second run processes zero rows provided the first run left no row with a
NULL embedding — in general the second run re-fetches (and re-counts) the
rows that stayed NULL because of NULL text or per-row failures, while still
leaving the state unchanged. -/
theorem create_embeddings_idempotent (cat : Catalog) (p : Provider)
    (uf : Nat → Option String) (tn cn : String) (bs dim : Nat)
    (rows : List Row) (pkCol : String) (rest : List String)
    (hte : cat.tableExists = true) (hce : cat.columnExists = true)
    (hpk : cat.pkColumns = pkCol :: rest) :
    ((∀ r ∈ rows, r.embedding.isSome = true) →
      (create_embeddings cat none p uf tn cn bs dim rows).total = 0 ∧
      (create_embeddings cat none p uf tn cn bs dim rows).rows = rows ∧
      (create_embeddings cat none p uf tn cn bs dim rows).trace.getLast?
        = some (Event.print doneMsg)) ∧
    (create_embeddings cat none p uf tn cn bs dim
        (create_embeddings cat none p uf tn cn bs dim rows).rows).rows
      = (create_embeddings cat none p uf tn cn bs dim rows).rows ∧
    ((∀ r ∈ (create_embeddings cat none p uf tn cn bs dim rows).rows,
        r.embedding.isSome = true) →
      (create_embeddings cat none p uf tn cn bs dim
        (create_embeddings cat none p uf tn cn bs dim rows).rows).total = 0) := by
  rcases cat with ⟨te, ce, pks⟩
  have h1 : te = true := hte
  have h2 : ce = true := hce
  have h3 : pks = pkCol :: rest := hpk
  subst h1
  subst h2
  subst h3
  refine ⟨?_, ?_, ?_⟩
  · intro hall
    rw [create_embeddings_all_embedded p uf tn cn bs dim rows pkCol rest hall]
    exact ⟨rfl, rfl, rfl⟩
  · rcases Nat.eq_zero_or_pos bs with h0 | hbs
    · subst h0
      have hfix : ∀ rs : List Row,
          (create_embeddings ⟨true, true, pkCol :: rest⟩ none p uf tn cn 0 dim
            rs).rows = rs := by
        intro rs
        rw [create_embeddings_ok_rows,
            backfillLoop_nil p uf pkCol 0 rs _ 0 (by simp)]
      rw [hfix, hfix]
    · have hrows1 : (create_embeddings ⟨true, true, pkCol :: rest⟩ none p uf
          tn cn bs dim rows).rows
          = runRows p uf rows (rows.filter (fun r => r.embedding.isNone)) := by
        rw [create_embeddings_ok_rows, backfillLoop_fst p uf pkCol bs hbs]
      have hrows2 : (create_embeddings ⟨true, true, pkCol :: rest⟩ none p uf
          tn cn bs dim
          (create_embeddings ⟨true, true, pkCol :: rest⟩ none p uf tn cn bs dim
            rows).rows).rows
          = runRows p uf
              (create_embeddings ⟨true, true, pkCol :: rest⟩ none p uf tn cn
                bs dim rows).rows
              ((create_embeddings ⟨true, true, pkCol :: rest⟩ none p uf tn cn
                bs dim rows).rows.filter (fun r => r.embedding.isNone)) := by
        rw [create_embeddings_ok_rows, backfillLoop_fst p uf pkCol bs hbs]
      rw [hrows2]
      rw [hrows1]
      apply runRows_id
      intro r hrF
      rw [List.mem_filter] at hrF
      obtain ⟨hrF1, hrFnone⟩ := hrF
      obtain ⟨i, hlt, hgeti⟩ := List.mem_iff_getElem.mp hrF1
      have hFq : (runRows p uf rows
          (rows.filter (fun r => r.embedding.isNone)))[i]? = some r := by
        rw [List.getElem?_eq_getElem hlt, hgeti]
      have hlen : i < rows.length := by
        have hL := runRows_length p uf
          (rows.filter (fun r => r.embedding.isNone)) rows
        omega
      have hrq : rows[i]? = some rows[i] := List.getElem?_eq_getElem hlen
      obtain ⟨r1, hr1, hpk1, ht1, he1⟩ := runRows_getElem p uf
        (rows.filter (fun r => r.embedding.isNone)) rows i rows[i] hrq
      have hr1r : r1 = r := by
        rw [hr1] at hFq
        exact Option.some_inj.mp hFq
      rw [← hr1r] at hrFnone
      rw [← hr1r]
      have hremb : r1.embedding = none := Option.isNone_iff_eq_none.mp hrFnone
      cases hout : rowOutcome p uf r1 with
      | none => rfl
      | some v =>
        exfalso
        rcases he1 with he1 | ⟨rr, _, w, _, hsome⟩
        · have h0emb : (rows[i]).embedding = none := by
            rw [← he1]
            exact hremb
          have hco : rowOutcome p uf rows[i] = some v := by
            rw [← rowOutcome_congr p uf r1 rows[i] ht1 hpk1, hout]
          have hpend : rows[i] ∈ rows.filter (fun r => r.embedding.isNone) := by
            rw [List.mem_filter]
            exact ⟨List.getElem_mem hlen, by rw [h0emb]; rfl⟩
          obtain ⟨r2, hr2, hs2⟩ := runRows_hit p uf
            (rows.filter (fun r => r.embedding.isNone)) rows i rows[i] rows[i] v
            hrq hpend hco rfl
          rw [hr1] at hr2
          have hr2r : r2 = r1 := Option.some_inj.mp hr2.symm
          subst hr2r
          rw [hremb] at hs2
          simp at hs2
        · rw [hsome] at hremb
          cases hremb
  · intro hall2
    rw [create_embeddings_all_embedded p uf tn cn bs dim _ pkCol rest hall2]

/-- Witness for C6 (amended) at a concrete fully-embedded table. -/
theorem create_embeddings_idempotent_witness :
    ((∀ r ∈ ([{ pk := 1, text := some "x", embedding := some [1] }] : List Row),
      r.embedding.isSome = true) →
      (create_embeddings ⟨true, true, ["id"]⟩ none
        (fun _ => Except.ok ([1] : Vec)) (fun _ => none) "t" "c" 7 3
        [{ pk := 1, text := some "x", embedding := some [1] }]).total = 0 ∧
      (create_embeddings ⟨true, true, ["id"]⟩ none
        (fun _ => Except.ok ([1] : Vec)) (fun _ => none) "t" "c" 7 3
        [{ pk := 1, text := some "x", embedding := some [1] }]).rows
        = [{ pk := 1, text := some "x", embedding := some [1] }] ∧
      (create_embeddings ⟨true, true, ["id"]⟩ none
        (fun _ => Except.ok ([1] : Vec)) (fun _ => none) "t" "c" 7 3
        [{ pk := 1, text := some "x", embedding := some [1] }]).trace.getLast?
        = some (Event.print doneMsg)) ∧
    (create_embeddings ⟨true, true, ["id"]⟩ none
        (fun _ => Except.ok ([1] : Vec)) (fun _ => none) "t" "c" 7 3
        (create_embeddings ⟨true, true, ["id"]⟩ none
          (fun _ => Except.ok ([1] : Vec)) (fun _ => none) "t" "c" 7 3
          [{ pk := 1, text := some "x", embedding := some [1] }]).rows).rows
      = (create_embeddings ⟨true, true, ["id"]⟩ none
          (fun _ => Except.ok ([1] : Vec)) (fun _ => none) "t" "c" 7 3
          [{ pk := 1, text := some "x", embedding := some [1] }]).rows ∧
    ((∀ r ∈ (create_embeddings ⟨true, true, ["id"]⟩ none
          (fun _ => Except.ok ([1] : Vec)) (fun _ => none) "t" "c" 7 3
          [{ pk := 1, text := some "x", embedding := some [1] }]).rows,
        r.embedding.isSome = true) →
      (create_embeddings ⟨true, true, ["id"]⟩ none
        (fun _ => Except.ok ([1] : Vec)) (fun _ => none) "t" "c" 7 3
        (create_embeddings ⟨true, true, ["id"]⟩ none
          (fun _ => Except.ok ([1] : Vec)) (fun _ => none) "t" "c" 7 3
          [{ pk := 1, text := some "x", embedding := some [1] }]).rows).total
        = 0) :=
  create_embeddings_idempotent ⟨true, true, ["id"]⟩
    (fun _ => Except.ok ([1] : Vec)) (fun _ => none) "t" "c" 7 3
    [{ pk := 1, text := some "x", embedding := some [1] }]
    "id" [] rfl rfl rfl

/-- C8: a successful query-mode invocation returns `some` result list, and
every such list has at most `lim` entries, excludes every row whose
embedding column is NULL, carries similarity scores equal to `1 - distance`
to the query embedding, and is ordered by ascending distance — equivalently,
by descending similarity, rank 1 being the smallest distance. -/
theorem semantic_search_ranking (cat : QueryCatalog) (p : Provider)
    (dist : Vec → Vec → ℚ) (tn cn phrase : String) (lim : Nat)
    (rows : List Row) (q : Vec)
    (hp : p phrase = Except.ok q) (ht : cat.tableExists = true)
    (htc : cat.textColumnExists = true) (hec : cat.embColumnExists = true) :
    (semantic_search cat none p dist none tn cn phrase lim rows).1
      = some (rankResults dist q lim rows) ∧
    ∀ l, (semantic_search cat none p dist none tn cn phrase lim rows).1
        = some l →
      l.length ≤ lim ∧
      l.Pairwise (fun a b => b.2 ≤ a.2) ∧
      ∀ pr ∈ l, ∃ r ∈ rows, ∃ v, r.embedding = some v ∧
        pr = (r.text, 1 - dist v q) := by
  rcases cat with ⟨te, tc, ec⟩
  have h1 : te = true := ht
  have h2 : tc = true := htc
  have h3 : ec = true := hec
  subst h1
  subst h2
  subst h3
  have hout : (semantic_search ⟨true, true, true⟩ none p dist none tn cn phrase
      lim rows).1 = some (rankResults dist q lim rows) := by
    simp [semantic_search, hp]
  refine ⟨hout, ?_⟩
  intro l hl
  rw [hout] at hl
  have hl2 : rankResults dist q lim rows = l := Option.some_inj.mp hl
  subst hl2
  refine ⟨?_, ?_, ?_⟩
  · rw [rankResults, List.length_map, List.length_take]
    exact min_le_left _ _
  · rw [rankResults, List.pairwise_map]
    have htrans : ∀ (a b c : Option String × ℚ),
        (fun a b => decide (a.2 ≤ b.2)) a b = true →
        (fun a b => decide (a.2 ≤ b.2)) b c = true →
        (fun a b => decide (a.2 ≤ b.2)) a c = true := by
      intro a b c hab hbc
      simp only [decide_eq_true_eq] at hab hbc ⊢
      exact le_trans hab hbc
    have htotal : ∀ (a b : Option String × ℚ),
        ((fun a b => decide (a.2 ≤ b.2)) a b ||
          (fun a b => decide (a.2 ≤ b.2)) b a) = true := by
      intro a b
      rcases le_total a.2 b.2 with h | h <;> simp [h]
    have hsorted := List.sorted_mergeSort htrans htotal
      (rows.filterMap (fun r =>
        match r.embedding with
        | some v => some (r.text, dist v q)
        | none => none))
    have hs2 : ((rows.filterMap (fun r =>
        match r.embedding with
        | some v => some (r.text, dist v q)
        | none => none)).mergeSort
          (fun a b => decide (a.2 ≤ b.2))).Pairwise
        (fun a b : Option String × ℚ => a.2 ≤ b.2) := by
      refine hsorted.imp ?_
      intro a b h
      simpa using h
    have hs3 := List.Pairwise.sublist (List.take_sublist lim _) hs2
    refine hs3.imp ?_
    intro a b h
    exact sub_le_sub_left h 1
  · intro pr hpr
    rw [rankResults] at hpr
    obtain ⟨p0, hp0mem, hfp⟩ := List.mem_map.mp hpr
    have hp0s : p0 ∈ (rows.filterMap (fun r =>
        match r.embedding with
        | some v => some (r.text, dist v q)
        | none => none)).mergeSort (fun a b => decide (a.2 ≤ b.2)) :=
      List.take_subset lim _ hp0mem
    have hp0c : p0 ∈ rows.filterMap (fun r =>
        match r.embedding with
        | some v => some (r.text, dist v q)
        | none => none) :=
      ((List.mergeSort_perm _ (fun a b => decide (a.2 ≤ b.2))).mem_iff).mp hp0s
    obtain ⟨r, hr, hfr⟩ := List.mem_filterMap.mp hp0c
    cases hre : r.embedding with
    | none =>
      rw [hre] at hfr
      cases hfr
    | some v =>
      rw [hre] at hfr
      have hp0 : (r.text, dist v q) = p0 := by simpa using hfr
      refine ⟨r, hr, v, hre, ?_⟩
      rw [← hfp, ← hp0]

/-- Witness for C8: the spec's example — three rows at distances 1/10, 1/2,
9/10 from the query vector, limit 2. -/
theorem semantic_search_ranking_witness :
    (semantic_search ⟨true, true, true⟩ none (fun _ => Except.ok ([] : Vec))
      (fun v _ => v.headD 0) none "t" "c" "x" 2
      [{ pk := 1, text := some "a", embedding := some [1/10] },
       { pk := 2, text := some "b", embedding := some [1/2] },
       { pk := 3, text := some "c", embedding := some [9/10] }]).1
      = some (rankResults (fun v _ => v.headD 0) [] 2
          [{ pk := 1, text := some "a", embedding := some [1/10] },
           { pk := 2, text := some "b", embedding := some [1/2] },
           { pk := 3, text := some "c", embedding := some [9/10] }]) ∧
    ∀ l, (semantic_search ⟨true, true, true⟩ none (fun _ => Except.ok ([] : Vec))
        (fun v _ => v.headD 0) none "t" "c" "x" 2
        [{ pk := 1, text := some "a", embedding := some [1/10] },
         { pk := 2, text := some "b", embedding := some [1/2] },
         { pk := 3, text := some "c", embedding := some [9/10] }]).1 = some l →
      l.length ≤ 2 ∧
      l.Pairwise (fun a b => b.2 ≤ a.2) ∧
      ∀ pr ∈ l, ∃ r ∈ ([{ pk := 1, text := some "a", embedding := some [1/10] },
          { pk := 2, text := some "b", embedding := some [1/2] },
          { pk := 3, text := some "c", embedding := some [9/10] }] : List Row),
        ∃ v, r.embedding = some v ∧
          pr = (r.text, 1 - (fun v _ => v.headD 0) v ([] : Vec)) :=
  semantic_search_ranking ⟨true, true, true⟩ (fun _ => Except.ok ([] : Vec))
    (fun v _ => v.headD 0) "t" "c" "x" 2
    [{ pk := 1, text := some "a", embedding := some [1/10] },
     { pk := 2, text := some "b", embedding := some [1/2] },
     { pk := 3, text := some "c", embedding := some [9/10] }]
    [] rfl rfl rfl rfl

end Embedder
